import Mathlib

/-!
Verification development for the Instagram caption pre-processing app
(src/streamlit_app.py).  The two core functions are embedded from the
source: `instagram_sentence_tokenize` (lines 41-56) and `preprocess`
(lines 60-82), together with the pieces of Python/regex/pandas behaviour
they depend on.
-/

namespace IGApp

/-- Whitespace characters recognised by the tokenizer's normalization step
(src/streamlit_app.py line 43, re.sub applied to str(text).strip()).
Python's whitespace class also covers some rarer non-ASCII whitespace; the
development models the ASCII whitespace characters, which are the ones the
claims exercise. -/
def isSpace (c : Char) : Bool :=
  c = ' ' || c = '\t' || c = '\n' || c = '\r' || c = '\x0b' || c = '\x0c'

/-- Python str.strip: drop whitespace from both ends of the text. -/
def pyStrip (l : List Char) : List Char :=
  ((l.dropWhile isSpace).reverse.dropWhile isSpace).reverse

/-- Replace every maximal run of whitespace characters by a single ASCII
space, as re.sub does with a one-or-more whitespace pattern (line 43). -/
def collapseWs : List Char → List Char
  | [] => []
  | [c] => if isSpace c then [' '] else [c]
  | c :: d :: cs =>
    if isSpace c then
      if isSpace d then collapseWs (d :: cs) else ' ' :: collapseWs (d :: cs)
    else c :: collapseWs (d :: cs)

/-- The sentence-terminator character class of _SENTENCE_END_RE
(line 39): period, exclamation mark, question mark, horizontal ellipsis. -/
def isTerm (c : Char) : Bool :=
  c = '.' || c = '!' || c = '?' || c = '…'

/-- re.split with _SENTENCE_END_RE (line 47).  The regex matches each
maximal run of one-or-more terminator characters; re.split returns the
texts between matches interleaved with the captured group of each match.
Because the capturing group in the source pattern encloses a single
terminator character and the repetition sits outside the group, the group
retains only the LAST character of its run (standard regex repeated-group
semantics).  The fuel argument is a recursion bound; fuel = input length
suffices because every recursive step consumes at least one character. -/
def pySplitCaptureF : Nat → List Char → List (List Char)
  | 0, l => [l.takeWhile (fun a => !isTerm a)]
  | fuel + 1, l =>
    match l.dropWhile (fun a => !isTerm a) with
    | [] => [l.takeWhile (fun a => !isTerm a)]
    | c :: rs =>
      l.takeWhile (fun a => !isTerm a)
        :: [(rs.takeWhile isTerm).getLastD c]
        :: pySplitCaptureF fuel (rs.dropWhile isTerm)

/-- re.split(_SENTENCE_END_RE, text) with adequate fuel. -/
def pySplitCapture (l : List Char) : List (List Char) :=
  pySplitCaptureF l.length l

/-- The reassembly loop of instagram_sentence_tokenize (lines 48-55): walk
the split parts two at a time, re-attach the captured delimiter to the
chunk that precedes it, strip, and keep the non-empty results. -/
def assemble : List (List Char) → List (List Char)
  | [] => []
  | [p] => if pyStrip p = [] then [] else [pyStrip p]
  | p :: q :: rest =>
    (if pyStrip (p ++ q) = [] then [] else [pyStrip (p ++ q)]) ++ assemble rest

/-- instagram_sentence_tokenize (lines 41-56) on the already-stringified
caption, as a character list: normalize whitespace, return nothing for an
empty result, otherwise split on terminator runs and reassemble. -/
def tokenizeCore (l : List Char) : List (List Char) :=
  let t := collapseWs (pyStrip l)
  if t = [] then [] else assemble (pySplitCapture t)

/-- instagram_sentence_tokenize (lines 41-56) at the String level.  The
str() coercion applied to non-string inputs is modelled by pyStr below. -/
def instagram_sentence_tokenize (s : String) : List String :=
  (tokenizeCore s.toList).map (fun cs => String.mk cs)

/-- A cell value of the tabular input: a string, a missing/None value, or
an integer (the id column may hold numbers). -/
inductive PyVal where
  | vStr (s : String)
  | vNull
  | vInt (n : Int)
deriving DecidableEq

/-- Python str() of a cell value, as applied at lines 43 and 73.  str(None)
is the four-character string "None"; a missing CSV cell read through pandas
would arrive as a NaN and stringify to "nan" instead — both are non-empty
placeholder texts, and nothing below depends on which one is used. -/
def pyStr : PyVal → String
  | .vStr s => s
  | .vNull => "None"
  | .vInt n => toString n

/-- One output record, as built at lines 75-80. -/
structure Rec where
  id : PyVal
  context : String
  statement : String
  sentenceId : Nat
deriving DecidableEq

/-- A pandas DataFrame, modelled as its ordered column-name list plus one
association list of cells per row. -/
structure Frame where
  cols : List String
  rows : List (List (String × PyVal))
deriving DecidableEq

/-- Reading row[c]: the cell of a row at column c; a missing cell is null. -/
def getCell (row : List (String × PyVal)) (c : String) : PyVal :=
  (row.lookup c).getD PyVal.vNull

/-- The column rename shortcode to ID and caption to Context (line 68). -/
def renameKey (s : String) : String :=
  if s = "shortcode" then "ID" else if s = "caption" then "Context" else s

/-- df.rename over both columns (line 68): builds a new frame; the rename
has inplace=False, so the argument frame is never written. -/
def renameFrame (df : Frame) : Frame :=
  ⟨df.cols.map renameKey,
   df.rows.map (fun r => r.map (fun kv => (renameKey kv.1, kv.2)))⟩

/-- The records produced from one row (lines 72-80): one per sentence, with
enumerate(..., start=1) supplying the 1-based Sentence ID. -/
def rowRecords (post_id : PyVal) (context : String) : List Rec :=
  (List.enumFrom 1 (instagram_sentence_tokenize context)).map
    (fun p => ⟨post_id, context, p.2, p.1⟩)

/-- The row-expansion loop (lines 70-80), iterating the renamed rows in
order and accumulating their records. -/
def preprocessRecords (rows : List (List (String × PyVal))) : List Rec :=
  rows.flatMap
    (fun row => rowRecords (getCell row "ID") (pyStr (getCell row "Context")))

/-- The four output record keys, in the order they are written (75-80). -/
def outCols : List String := ["ID", "Context", "Statement", "Sentence ID"]

/-- One output record rendered as a row of the output frame. -/
def recRow (r : Rec) : List (String × PyVal) :=
  [("ID", r.id), ("Context", PyVal.vStr r.context),
   ("Statement", PyVal.vStr r.statement), ("Sentence ID", PyVal.vInt r.sentenceId)]

/-- pd.DataFrame(records) (line 82) over a list of uniform four-key dicts:
the columns are the record keys in first-appearance order; an empty record
list yields a frame with no columns at all. -/
def frameOfRecords (rs : List Rec) : Frame :=
  ⟨if rs.isEmpty then [] else outCols, rs.map recRow⟩

/-- The columns required at line 63. -/
def requiredCols : List String := ["shortcode", "caption"]

/-- preprocess (lines 60-82).  The missing-column names in the error
message come from iterating a Python set, whose order depends on the
per-process string-hash seed; the model lists them in requiredCols order,
which is one of the possible orders. -/
def preprocess (df : Frame) : Except String Frame :=
  if requiredCols.all (fun c => df.cols.contains c) then
    Except.ok (frameOfRecords (preprocessRecords (renameFrame df).rows))
  else
    Except.error ("Input CSV missing required column(s): " ++
      String.intercalate ", " (requiredCols.filter (fun c => !df.cols.contains c)))

/-- The caller-visible state across a preprocess call: the first component
is the caller's frame object after the call.  df.rename at line 68 returns
a new frame bound to the local name df, and no operation in preprocess
writes the argument frame, so the caller's object is returned as-is. -/
def preprocessSt (df : Frame) : Frame × Except String Frame :=
  (df, preprocess df)

/-! Helper lemmas about the embedded string operations. -/

lemma term_not_space {c : Char} (h : isTerm c = true) : isSpace c = false := by
  unfold isTerm at h
  simp only [Bool.or_eq_true, decide_eq_true_eq] at h
  rcases h with ((rfl | rfl) | rfl) | rfl <;> decide

lemma dropWhile_head_false {α : Type} {p : α → Bool} :
    ∀ {l : List α} {c : α} {rs : List α}, l.dropWhile p = c :: rs → p c = false := by
  intro l
  induction l with
  | nil => intro c rs h; simp at h
  | cons a t ih =>
    intro c rs h
    rw [List.dropWhile_cons] at h
    by_cases hp : p a
    · rw [if_pos hp] at h
      exact ih h
    · rw [if_neg hp] at h
      injection h with h1 h2
      subst h1
      cases hb : p a with
      | false => rfl
      | true => exact absurd hb hp

lemma dropWhile_all_false {α : Type} {p : α → Bool} {l : List α}
    (h : ∀ c ∈ l, p c = false) : l.dropWhile p = l := by
  cases l with
  | nil => rfl
  | cons a t =>
    rw [List.dropWhile_cons, if_neg]
    simp [h a (List.mem_cons_self a t)]

lemma pyStrip_sublist (l : List Char) : List.Sublist (pyStrip l) l := by
  unfold pyStrip
  have h1 : List.Sublist (l.dropWhile isSpace) l := List.dropWhile_sublist isSpace
  have h2 : List.Sublist ((l.dropWhile isSpace).reverse.dropWhile isSpace)
      (l.dropWhile isSpace).reverse := List.dropWhile_sublist isSpace
  have h3 := h2.reverse
  rw [List.reverse_reverse] at h3
  exact h3.trans h1

lemma mem_pyStrip {c : Char} {l : List Char} (h : c ∈ pyStrip l) : c ∈ l :=
  (pyStrip_sublist l).subset h

lemma pyStrip_all_nonspace {l : List Char} (h : ∀ c ∈ l, isSpace c = false) :
    pyStrip l = l := by
  unfold pyStrip
  rw [dropWhile_all_false h, dropWhile_all_false, List.reverse_reverse]
  intro c hc
  exact h c (List.mem_reverse.mp hc)

lemma pyStrip_append_nonspace (xs : List Char) {g : Char} (hg : isSpace g = false) :
    pyStrip (xs ++ [g]) = xs.dropWhile isSpace ++ [g] := by
  unfold pyStrip
  rw [List.dropWhile_append]
  by_cases he : (xs.dropWhile isSpace).isEmpty
  · rw [if_pos he]
    rw [List.isEmpty_iff] at he
    simp [List.dropWhile_cons, hg, he]
  · rw [if_neg he]
    simp [List.reverse_append, List.dropWhile_cons, hg]

lemma collapseWs_all_nonspace {l : List Char} (h : ∀ c ∈ l, isSpace c = false) :
    collapseWs l = l := by
  induction l with
  | nil => rfl
  | cons c cs ih =>
    cases cs with
    | nil => simp [collapseWs, h c (List.mem_cons_self c [])]
    | cons d ds =>
      rw [collapseWs, if_neg]
      · rw [ih]
        intro x hx
        exact h x (List.mem_cons_of_mem c hx)
      · simp [h c (List.mem_cons_self c (d :: ds))]

lemma getLastD_cons_mem (x : Char) (xs : List Char) (d : Char) :
    (x :: xs).getLastD d ∈ x :: xs := by
  induction xs generalizing x d with
  | nil => simp [List.getLastD]
  | cons y ys ih =>
    rw [List.getLastD_cons]
    exact List.mem_cons_of_mem x (ih y x)

lemma isTerm_getLastD_run {c : Char} {rs : List Char} (hc : isTerm c = true) :
    isTerm ((rs.takeWhile isTerm).getLastD c) = true := by
  cases hrw : rs.takeWhile isTerm with
  | nil => simpa using hc
  | cons x xs =>
    have hmem : (x :: xs).getLastD c ∈ x :: xs := getLastD_cons_mem x xs c
    have hmem2 : (x :: xs).getLastD c ∈ rs.takeWhile isTerm := by
      rw [hrw]
      exact hmem
    exact List.mem_takeWhile_imp hmem2

/-! Unfolding lemmas for the capturing split. -/

lemma length_dropWhile_le (p : Char → Bool) (l : List Char) :
    (l.dropWhile p).length ≤ l.length :=
  (List.dropWhile_sublist p).length_le

lemma splitF_congr :
    ∀ f₁ f₂ (l : List Char), l.length ≤ f₁ → l.length ≤ f₂ →
      pySplitCaptureF f₁ l = pySplitCaptureF f₂ l := by
  intro f₁
  induction f₁ with
  | zero =>
    intro f₂ l h₁ h₂
    have hl : l = [] := List.length_eq_zero.mp (Nat.le_zero.mp h₁)
    subst hl
    cases f₂ <;> simp [pySplitCaptureF]
  | succ n ih =>
    intro f₂ l h₁ h₂
    cases f₂ with
    | zero =>
      have hl : l = [] := List.length_eq_zero.mp (Nat.le_zero.mp h₂)
      subst hl
      simp [pySplitCaptureF]
    | succ m =>
      cases hd : l.dropWhile (fun a => !isTerm a) with
      | nil => simp [pySplitCaptureF, hd]
      | cons c rs =>
        have hrs : rs.length + 1 ≤ l.length := by
          have := length_dropWhile_le (fun a => !isTerm a) l
          rw [hd] at this
          simpa using this
        have hrest : (rs.dropWhile isTerm).length ≤ rs.length :=
          length_dropWhile_le isTerm rs
        have hn : (rs.dropWhile isTerm).length ≤ n := by omega
        have hm : (rs.dropWhile isTerm).length ≤ m := by omega
        simp only [pySplitCaptureF, hd]
        rw [ih m (rs.dropWhile isTerm) hn hm]

lemma pySplitCapture_nil_case {l : List Char}
    (h : l.dropWhile (fun a => !isTerm a) = []) :
    pySplitCapture l = [l.takeWhile (fun a => !isTerm a)] := by
  cases l with
  | nil => rfl
  | cons a t =>
    show pySplitCaptureF (t.length + 1) (a :: t) = _
    simp [pySplitCaptureF, h]

lemma pySplitCapture_cons_case {l : List Char} {c : Char} {rs : List Char}
    (h : l.dropWhile (fun a => !isTerm a) = c :: rs) :
    pySplitCapture l =
      l.takeWhile (fun a => !isTerm a)
        :: [(rs.takeWhile isTerm).getLastD c]
        :: pySplitCapture (rs.dropWhile isTerm) := by
  cases l with
  | nil => simp at h
  | cons a t =>
    have hrs : rs.length + 1 ≤ t.length + 1 := by
      have := length_dropWhile_le (fun x => !isTerm x) (a :: t)
      rw [h] at this
      simpa using this
    have hrest : (rs.dropWhile isTerm).length ≤ rs.length :=
      length_dropWhile_le isTerm rs
    show pySplitCaptureF (t.length + 1) (a :: t) = _
    simp only [pySplitCaptureF, h]
    rw [splitF_congr t.length (rs.dropWhile isTerm).length (rs.dropWhile isTerm)
      (by omega) (by omega)]
    rfl

/-! Unfolding lemmas for the reassembled sentence list. -/

lemma assemble_split_nil_case {l : List Char}
    (h : l.dropWhile (fun a => !isTerm a) = []) :
    assemble (pySplitCapture l) =
      if pyStrip (l.takeWhile (fun a => !isTerm a)) = [] then []
      else [pyStrip (l.takeWhile (fun a => !isTerm a))] := by
  rw [pySplitCapture_nil_case h]
  rfl

lemma assemble_split_cons_case {l : List Char} {c : Char} {rs : List Char}
    (h : l.dropWhile (fun a => !isTerm a) = c :: rs) :
    assemble (pySplitCapture l) =
      ((l.takeWhile (fun a => !isTerm a)).dropWhile isSpace
          ++ [(rs.takeWhile isTerm).getLastD c])
        :: assemble (pySplitCapture (rs.dropWhile isTerm)) := by
  rw [pySplitCapture_cons_case h]
  have hc : isTerm c = true := by
    have := dropWhile_head_false h
    simpa using this
  have hg : isTerm ((rs.takeWhile isTerm).getLastD c) = true := isTerm_getLastD_run hc
  have hs : pyStrip (l.takeWhile (fun a => !isTerm a)
        ++ [(rs.takeWhile isTerm).getLastD c])
      = (l.takeWhile (fun a => !isTerm a)).dropWhile isSpace
        ++ [(rs.takeWhile isTerm).getLastD c] :=
    pyStrip_append_nonspace _ (term_not_space hg)
  show (if _ = ([] : List Char) then ([] : List (List Char)) else _) ++ _ = _
  rw [hs, if_neg (by simp)]
  rfl

/-! Structural properties of the reassembled sentence list. -/

lemma assemble_split_props :
    ∀ n (l : List Char), l.length ≤ n →
      (∀ s ∈ assemble (pySplitCapture l),
          s ≠ [] ∧ ∀ c ∈ s.dropLast, isTerm c = false) ∧
      (∀ s ∈ (assemble (pySplitCapture l)).dropLast,
          isTerm (s.getLastD ' ') = true) := by
  intro n
  induction n with
  | zero =>
    intro l hl
    have : l = [] := List.length_eq_zero.mp (Nat.le_zero.mp hl)
    subst this
    constructor <;> intro s hs <;> simp [assemble, pySplitCapture, pySplitCaptureF, pyStrip] at hs
  | succ n ih =>
    intro l hl
    cases hd : l.dropWhile (fun a => !isTerm a) with
    | nil =>
      rw [assemble_split_nil_case hd]
      by_cases hstrip : pyStrip (l.takeWhile (fun a => !isTerm a)) = []
      · rw [if_pos hstrip]
        constructor <;> intro s hs <;> simp at hs
      · rw [if_neg hstrip]
        constructor
        · intro s hs
          rw [List.mem_singleton] at hs
          subst hs
          refine ⟨hstrip, ?_⟩
          intro c hc
          have hc1 : c ∈ pyStrip (l.takeWhile (fun a => !isTerm a)) :=
            (List.dropLast_sublist _).subset hc
          have hc2 : c ∈ l.takeWhile (fun a => !isTerm a) := mem_pyStrip hc1
          have := List.mem_takeWhile_imp hc2
          simpa using this
        · intro s hs
          simp at hs
    | cons c rs =>
      have hrs : rs.length + 1 ≤ l.length := by
        have := length_dropWhile_le (fun a => !isTerm a) l
        rw [hd] at this
        simpa using this
      have hrest : (rs.dropWhile isTerm).length ≤ n := by
        have := length_dropWhile_le isTerm rs
        omega
      obtain ⟨ih1, ih2⟩ := ih (rs.dropWhile isTerm) hrest
      rw [assemble_split_cons_case hd]
      have hc : isTerm c = true := by
        have := dropWhile_head_false hd
        simpa using this
      have hg : isTerm ((rs.takeWhile isTerm).getLastD c) = true := isTerm_getLastD_run hc
      constructor
      · intro s hs
        rw [List.mem_cons] at hs
        rcases hs with rfl | hs
        · refine ⟨by simp, ?_⟩
          intro x hx
          rw [List.dropLast_concat] at hx
          have hx2 : x ∈ l.takeWhile (fun a => !isTerm a) :=
            (List.dropWhile_sublist isSpace).subset hx
          have := List.mem_takeWhile_imp hx2
          simpa using this
        · exact ih1 s hs
      · intro s hs
        cases ht : assemble (pySplitCapture (rs.dropWhile isTerm)) with
        | nil =>
          rw [ht] at hs
          simp at hs
        | cons t ts =>
          rw [ht] at hs
          have : s ∈ ((l.takeWhile (fun a => !isTerm a)).dropWhile isSpace
              ++ [(rs.takeWhile isTerm).getLastD c]) :: (t :: ts).dropLast := hs
          rw [List.mem_cons] at this
          rcases this with rfl | hmem
          · rw [List.getLastD_concat]
            exact hg
          · apply ih2
            rw [ht]
            exact hmem

lemma tokenizeCore_props (l : List Char) :
    (∀ s ∈ tokenizeCore l, s ≠ [] ∧ ∀ c ∈ s.dropLast, isTerm c = false) ∧
    (∀ s ∈ (tokenizeCore l).dropLast, isTerm (s.getLastD ' ') = true) := by
  unfold tokenizeCore
  by_cases h : collapseWs (pyStrip l) = []
  · simp only [h, if_pos rfl]
    constructor <;> intro s hs <;> simp at hs
  · simp only [if_neg h]
    exact assemble_split_props (collapseWs (pyStrip l)).length _ le_rfl

/-! Claim theorems. -/

/-- C10: every sentence returned by instagram_sentence_tokenize contains at
most one terminator character from the class [.!?…]; any terminator it
contains is the sentence's final character (no terminator occurs before the
last position); and every returned sentence other than possibly the last
ends with such a terminator. -/
theorem C10_sentence_terminator_structure (s t : String)
    (ht : t ∈ instagram_sentence_tokenize s) :
    ((t.toList.filter isTerm).length ≤ 1 ∧
      ∀ c ∈ t.toList.dropLast, isTerm c = false) ∧
    (t ∈ (instagram_sentence_tokenize s).dropLast →
      isTerm (t.toList.getLastD ' ') = true) := by
  obtain ⟨props1, props2⟩ := tokenizeCore_props s.toList
  unfold instagram_sentence_tokenize at ht
  obtain ⟨cs, hcs, rfl⟩ := List.mem_map.mp ht
  have hlist : (String.mk cs).toList = cs := rfl
  obtain ⟨hne, hdl⟩ := props1 cs hcs
  constructor
  · constructor
    · rw [hlist]
      have hsplit := List.dropLast_append_getLast hne
      have hdrop : cs.dropLast.filter isTerm = [] := by
        rw [List.filter_eq_nil_iff]
        intro a ha
        simp [hdl a ha]
      calc (cs.filter isTerm).length
          = ((cs.dropLast ++ [cs.getLast hne]).filter isTerm).length := by rw [hsplit]
        _ = (cs.dropLast.filter isTerm).length
              + ([cs.getLast hne].filter isTerm).length := by
            rw [List.filter_append, List.length_append]
        _ ≤ 0 + 1 := by
            rw [hdrop]
            simp only [List.length_nil]
            refine Nat.add_le_add le_rfl ?_
            cases hb : isTerm (cs.getLast hne) <;> simp [List.filter, hb]
        _ ≤ 1 := by omega
    · rw [hlist]
      exact hdl
  · intro hmem
    unfold instagram_sentence_tokenize at hmem
    rw [← List.map_dropLast] at hmem
    obtain ⟨cs2, hcs2, heq⟩ := List.mem_map.mp hmem
    have hcseq : cs2 = cs := by
      have := congrArg String.toList heq
      simpa using this
    subst hcseq
    rw [hlist]
    exact props2 cs2 hcs2

/-- C10 witness: instantiation of the terminator-structure theorem at the
caption "Hi. Bye" and its first sentence "Hi.". -/
theorem C10_sentence_terminator_structure_witness :
    ("Hi." ∈ instagram_sentence_tokenize "Hi. Bye") ∧
    ((((String.toList "Hi.").filter isTerm).length ≤ 1 ∧
        ∀ c ∈ (String.toList "Hi.").dropLast, isTerm c = false) ∧
      ("Hi." ∈ (instagram_sentence_tokenize "Hi. Bye").dropLast →
        isTerm ((String.toList "Hi.").getLastD ' ') = true)) :=
  ⟨by decide, C10_sentence_terminator_structure "Hi. Bye" "Hi." (by decide)⟩

/-- C1: evaluation of the tokenizer at the spec's own example.  The claim
expects ["Wait...", "what?!", "No way"]; the code returns ["Wait.", "what!",
"No way"], because the capturing group of _SENTENCE_END_RE sits inside the
repetition and therefore retains only the last terminator of each run. -/
theorem C1_tokenize_run_truncated :
    instagram_sentence_tokenize "Wait... what?! No way"
        = ["Wait.", "what!", "No way"] ∧
    (["Wait.", "what!", "No way"] : List String)
        ≠ ["Wait...", "what?!", "No way"] := by
  constructor
  · decide
  · decide

/-- C2: evaluation at the caption "Hi.. bye".  The normalized input has two
periods but the concatenation of the returned sentences has only one, so a
non-whitespace character of the normalized input is dropped, contrary to
the claim. -/
theorem C2_concatenation_drops_characters :
    instagram_sentence_tokenize "Hi.. bye" = ["Hi.", "bye"] ∧
    (((tokenizeCore (String.toList "Hi.. bye")).flatten.filter isTerm).length = 1 ∧
      ((collapseWs (pyStrip (String.toList "Hi.. bye"))).filter isTerm).length = 2) := by
  constructor
  · decide
  · constructor
    · decide
    · decide

/-- C3 counterexample: tokenizing the all-terminator caption "!!!" does not
give the empty sequence; the terminator run is re-attached to the empty
leading chunk, so the single sentence "!" survives the emptiness filter. -/
theorem C3_terminator_only_counterexample :
    instagram_sentence_tokenize "!!!" = ["!"] ∧
    instagram_sentence_tokenize "!!!" ≠ [] := by
  constructor
  · decide
  · decide

/-- C3 amended: tokenizing a non-empty caption consisting only of
terminator characters returns exactly one sentence, namely the last
terminator character of the run (the captured group of the final match),
not the empty sequence. -/
theorem C3_terminator_only_amended (s : String) (h1 : s.toList ≠ [])
    (h2 : ∀ c ∈ s.toList, isTerm c = true) :
    instagram_sentence_tokenize s = [String.mk [s.toList.getLastD ' ']] := by
  have hns : ∀ c ∈ s.toList, isSpace c = false := fun c hc => term_not_space (h2 c hc)
  unfold instagram_sentence_tokenize tokenizeCore
  rw [pyStrip_all_nonspace hns, collapseWs_all_nonspace hns]
  cases hl : s.toList with
  | nil => exact absurd hl h1
  | cons c rs =>
    have hc : isTerm c = true := h2 c (by rw [hl]; exact List.mem_cons_self c rs)
    have hrs : ∀ x ∈ rs, isTerm x = true := by
      intro x hx
      exact h2 x (by rw [hl]; exact List.mem_cons_of_mem c hx)
    have hd : (c :: rs).dropWhile (fun a => !isTerm a) = c :: rs := by
      rw [List.dropWhile_cons, if_neg (by simp [hc])]
    rw [if_neg (by simp), assemble_split_cons_case hd]
    have htk : (c :: rs).takeWhile (fun a => !isTerm a) = [] := by
      rw [List.takeWhile_cons, if_neg (by simp [hc])]
    have htkrs : rs.takeWhile isTerm = rs := List.takeWhile_eq_self_iff.mpr hrs
    have hdrs : rs.dropWhile isTerm = [] := List.dropWhile_eq_nil_iff.mpr hrs
    rw [htk, htkrs, hdrs, List.getLastD_cons]
    rfl

/-- C3 amended witness: the amended statement at the caption "!!!". -/
theorem C3_terminator_only_amended_witness :
    ((String.toList "!!!") ≠ [] ∧ ∀ c ∈ String.toList "!!!", isTerm c = true) ∧
    instagram_sentence_tokenize "!!!"
      = [String.mk [(String.toList "!!!").getLastD ' ']] :=
  ⟨⟨by decide, by decide⟩, C3_terminator_only_amended "!!!" (by decide) (by decide)⟩

/-- C5 counterexample: a None caption is stringified by str() to the text
"None", not coerced to the empty string; tokenizing it yields the sentence
"None", and a row whose caption is null contributes one output record. -/
theorem C5_null_caption_counterexample :
    pyStr PyVal.vNull = "None" ∧
    instagram_sentence_tokenize (pyStr PyVal.vNull) = ["None"] ∧
    (preprocessRecords [[("ID", PyVal.vStr "a"), ("Context", PyVal.vNull)]]).length
      = 1 := by
  refine ⟨rfl, by decide, by decide⟩

/-- C5 amended: tokenize of the empty string returns the empty sequence,
but a missing/null caption is coerced to the placeholder text "None" (str
of None; a pandas NaN cell would give "nan" instead), so tokenize of a
None-equivalent input returns the one-sentence sequence ["None"] and such a
row contributes exactly one output record whose Statement is "None". -/
theorem C5_null_caption_amended :
    instagram_sentence_tokenize "" = [] ∧
    instagram_sentence_tokenize (pyStr PyVal.vNull) = ["None"] ∧
    (preprocessRecords [[("ID", PyVal.vStr "a"), ("Context", PyVal.vNull)]]).map
        Rec.statement = ["None"] := by
  refine ⟨by decide, by decide, by decide⟩

/-! Per-row lemmas for the record loop. -/

/-- The number of sentences the tokenizer produces for a row's caption. -/
def nSents (row : List (String × PyVal)) : Nat :=
  (instagram_sentence_tokenize (pyStr (getCell row "Context"))).length

lemma preprocessRecords_cons (r : List (String × PyVal))
    (rest : List (List (String × PyVal))) :
    preprocessRecords (r :: rest)
      = rowRecords (getCell r "ID") (pyStr (getCell r "Context"))
          ++ preprocessRecords rest := by
  simp [preprocessRecords, List.flatMap_cons]

lemma rowRecords_length (pid : PyVal) (ctx : String) :
    (rowRecords pid ctx).length = (instagram_sentence_tokenize ctx).length := by
  simp [rowRecords]

lemma rowRecords_map_sentenceId (pid : PyVal) (ctx : String) :
    (rowRecords pid ctx).map Rec.sentenceId
      = List.range' 1 (instagram_sentence_tokenize ctx).length := by
  unfold rowRecords
  rw [List.map_map]
  have hcomp : (Rec.sentenceId ∘ fun p : Nat × String =>
      (⟨pid, ctx, p.2, p.1⟩ : Rec)) = Prod.fst := rfl
  rw [hcomp, List.enumFrom_map_fst]

lemma rowRecords_map_id (pid : PyVal) (ctx : String) :
    (rowRecords pid ctx).map Rec.id
      = List.replicate (instagram_sentence_tokenize ctx).length pid := by
  unfold rowRecords
  rw [List.map_map]
  have hcomp : (Rec.id ∘ fun p : Nat × String =>
      (⟨pid, ctx, p.2, p.1⟩ : Rec)) = fun _ => pid := rfl
  rw [hcomp, List.map_const', List.enumFrom_length]

lemma rowRecords_map_context (pid : PyVal) (ctx : String) :
    (rowRecords pid ctx).map Rec.context
      = List.replicate (instagram_sentence_tokenize ctx).length ctx := by
  unfold rowRecords
  rw [List.map_map]
  have hcomp : (Rec.context ∘ fun p : Nat × String =>
      (⟨pid, ctx, p.2, p.1⟩ : Rec)) = fun _ => ctx := rfl
  rw [hcomp, List.map_const', List.enumFrom_length]

/-- C6: for every row list, the record loop yields one record per sentence
(the total count is the sum of per-row sentence counts), the Sentence ID
projection is exactly the runs 1..N of each row concatenated in input row
order (so within each group the IDs are 1..N ascending with no gaps), and
the ID projection shows each group sitting contiguously in row order. -/
theorem C6_record_count_and_sentence_ids
    (rows : List (List (String × PyVal))) :
    (preprocessRecords rows).length = (rows.map nSents).sum ∧
    (preprocessRecords rows).map Rec.sentenceId
      = rows.flatMap (fun r => List.range' 1 (nSents r)) ∧
    (preprocessRecords rows).map Rec.id
      = rows.flatMap (fun r => List.replicate (nSents r) (getCell r "ID")) := by
  induction rows with
  | nil => exact ⟨rfl, rfl, rfl⟩
  | cons r rest ih =>
    obtain ⟨ih1, ih2, ih3⟩ := ih
    refine ⟨?_, ?_, ?_⟩
    · rw [preprocessRecords_cons, List.length_append, ih1, rowRecords_length]
      simp [nSents]
    · rw [preprocessRecords_cons, List.map_append, ih2, rowRecords_map_sentenceId,
        List.flatMap_cons]
      rfl
    · rw [preprocessRecords_cons, List.map_append, ih3, rowRecords_map_id,
        List.flatMap_cons]
      rfl

/-- C8: the Context field of every output record is the unmodified str() of
the source row's caption cell — the same value, byte for byte, for all
records of a row's group, with no whitespace normalization applied — and
str() of a string caption is the caption itself. -/
theorem C8_context_unmodified (rows : List (List (String × PyVal))) :
    (preprocessRecords rows).map Rec.context
      = rows.flatMap (fun r => List.replicate (nSents r) (pyStr (getCell r "Context"))) ∧
    ∀ s : String, pyStr (PyVal.vStr s) = s := by
  refine ⟨?_, fun s => rfl⟩
  induction rows with
  | nil => rfl
  | cons r rest ih =>
    rw [preprocessRecords_cons, List.map_append, ih, rowRecords_map_context,
      List.flatMap_cons]
    rfl

/-- C7 counterexample: an input table satisfying the precondition whose
single caption produces no sentences; pd.DataFrame of the resulting empty
record list is a frame with no columns at all, not the four named ones. -/
theorem C7_zero_record_counterexample :
    preprocess (Frame.mk ["shortcode", "caption"]
        [[("shortcode", PyVal.vStr "a"), ("caption", PyVal.vStr "")]])
      = Except.ok (Frame.mk [] []) ∧
    (Frame.mk ([] : List String) ([] : List (List (String × PyVal)))).cols
      ≠ outCols := by
  constructor
  · rfl
  · decide

/-- C7 amended: whenever preprocess succeeds and produces at least one
record, the output frame has exactly the four columns ID, Context,
Statement, Sentence ID in that order, regardless of any extra input
columns; when zero records are produced the output frame has no columns. -/
theorem C7_output_columns_amended (df out : Frame)
    (h : preprocess df = Except.ok out) (hne : out.rows ≠ []) :
    out.cols = ["ID", "Context", "Statement", "Sentence ID"] := by
  unfold preprocess at h
  by_cases hc : requiredCols.all (fun c => df.cols.contains c)
  · rw [if_pos hc] at h
    injection h with h
    subst h
    unfold frameOfRecords
    cases hrecs : preprocessRecords (renameFrame df).rows with
    | nil =>
      simp [frameOfRecords] at hne
      exact absurd hrecs hne
    | cons a as => rfl
  · rw [if_neg hc] at h
    exact absurd h (by simp)

/-- C7 amended witness: instantiation at a two-column table whose single
caption "Hi." produces one record. -/
theorem C7_output_columns_amended_witness :
    (Frame.mk outCols [recRow ⟨PyVal.vStr "a", "Hi.", "Hi.", 1⟩]).cols
      = ["ID", "Context", "Statement", "Sentence ID"] :=
  C7_output_columns_amended
    (Frame.mk ["shortcode", "caption"]
      [[("shortcode", PyVal.vStr "a"), ("caption", PyVal.vStr "Hi.")]])
    (Frame.mk outCols [recRow ⟨PyVal.vStr "a", "Hi.", "Hi.", 1⟩])
    rfl (by simp)

/-- C9: preprocess has no effect on the caller's input frame: the state
returned to the caller after the call carries the argument frame unchanged
(the column rename is performed on a fresh frame, not in place, and no rows
are added or removed from the input). -/
theorem C9_input_frame_unchanged (df : Frame) : (preprocessSt df).1 = df := rfl

end IGApp
